import Mathlib

/-!
A shallow embedding of the micro genetic-algorithm engine of
`src/micro-ga.c` / `src/micro-ga.h` (repository `loan-payment-optimizer`).

Modelling conventions:
* C `float` / `double` values (genes, fitness, rates, probabilities) are
  modelled as exact rationals `ℚ`.
* The process-wide random source (`rand()/((double)RAND_MAX + 1)`, always a
  value in `[0,1)`) is modelled as an explicit stream `rs : Nat → ℚ` of the
  successive draws, together with a `Nat` cursor threaded through every
  stochastic operation.
* The caller-supplied fitness callback (`void (*fitness_fn)(genome*)`), whose
  contract is to assign `individual->fitness` from the genes, is modelled as a
  pure function `List ℚ → ℚ` from genes to the assigned fitness; a `NULL`
  pointer is `none`.  The acceptance callback returns `unsigned int` (0 means
  reject) and is modelled as `micro_ga_genome_t → Nat`.
* The retrying loops in `population_init` and in the roulette-wheel parent
  selection of `micro_ga_evolve` need not terminate, so they take fuel and
  return `Option`; running out of fuel models the still-running C loop.
* `qsort` with `genome_compare` (compare by fitness only, unstable tie order)
  is modelled as a comparison sort by fitness (`List.insertionSort`).
* Heap allocation: `micro_ga_evolve` checks its three scratch `calloc`s for
  `NULL` but the `abort()` on failure is commented out in the source, so
  execution continues into a write through the null pointer; an `alloc_t`
  oracle says which allocations succeed and `step_result_t.nullDeref` records
  the population contents at the moment of the crashing write.
-/

set_option allowUnsafeReducibility true

attribute [semireducible] Rat.add Rat.mul Rat.inv Rat.sub Rat.ofScientific

/-- `micro_ga_genome_t` of `micro-ga.h`: genome size, gene buffer, fitness. -/
structure micro_ga_genome_t where
  genome_size : Nat
  genes : List ℚ
  fitness : ℚ
deriving DecidableEq, Repr

/-- `micro_ga_config_t` of `micro-ga.h`. -/
structure micro_ga_config_t where
  population_size : Nat
  genome_size : Nat
  mutation_rate : ℚ
  crossover_rate : ℚ
  fitness_thresh : ℚ
  fitness_fn : Option (List ℚ → ℚ)
  acceptance_fn : Option (micro_ga_genome_t → Nat)
  debug : Nat

/-- `micro_ga_t` of `micro-ga.h`. -/
structure micro_ga_t where
  generation : Nat
  population_size : Nat
  mutation_rate : ℚ
  crossover_rate : ℚ
  fitness_thresh : ℚ
  individuals : List micro_ga_genome_t
  genome_size : Nat
  fitness_fn : Option (List ℚ → ℚ)
  acceptance_fn : Option (micro_ga_genome_t → Nat)
  ready : Nat
  debug : Nat

/-- Default genome used to totalise list indexing; every index actually used
by the engine is in range. -/
def defaultGenome : micro_ga_genome_t := ⟨0, [], 0⟩

/-- The order `genome_compare` sorts by: ascending fitness. -/
def gaLe (g1 g2 : micro_ga_genome_t) : Prop := g1.fitness ≤ g2.fitness

instance : DecidableRel gaLe :=
  fun g1 g2 => inferInstanceAs (Decidable (g1.fitness ≤ g2.fitness))

instance : IsTotal micro_ga_genome_t gaLe :=
  ⟨fun a b => le_total a.fitness b.fitness⟩

instance : IsTrans micro_ga_genome_t gaLe :=
  ⟨fun _ _ _ h1 h2 => le_trans h1 h2⟩

/-- One gene of `crossover` (micro-ga.c:310-326).  Draw `c`; if
`c > crossover_rate`, draw again and blend `c*mother + (1-c)*father`;
otherwise draw again and copy mother's gene when the draw exceeds `0.5`,
father's otherwise.  Both branches consume exactly two draws. -/
def crossoverGene (rs : Nat → ℚ) (crossover_rate mg fg : ℚ) (i : Nat) : ℚ :=
  if crossover_rate < rs i then
    rs (i+1) * mg + (1 - rs (i+1)) * fg
  else
    if (1:ℚ)/2 < rs (i+1) then mg else fg

/-- The gene loop of `crossover`, pairwise over the two parents' gene buffers
(which the engine always calls with both buffers of length `genome_size`).
Returns the child's genes and the advanced random cursor. -/
def crossoverGenes (rs : Nat → ℚ) (rate : ℚ) :
    List ℚ → List ℚ → Nat → List ℚ × Nat
  | mg :: ms, fg :: fs, i =>
    let g := crossoverGene rs rate mg fg i
    let rest := crossoverGenes rs rate ms fs (i+2)
    (g :: rest.1, rest.2)
  | _, _, i => ([], i)

/-- `crossover` (micro-ga.c:297-331): build the child's genes, then set the
child's fitness to the unevaluated marker `-1` and its genome size to the
`genome_size` argument. -/
def crossover (rs : Nat → ℚ) (rate : ℚ) (mother father : micro_ga_genome_t)
    (genome_size : Nat) (i : Nat) : micro_ga_genome_t × Nat :=
  let r := crossoverGenes rs rate mother.genes father.genes i
  (⟨genome_size, r.1, -1⟩, r.2)

/-- The gene loop of `mutate` (micro-ga.c:339-348): per gene draw `r`; if
`r < mutation_rate` draw again and replace the gene with that draw (two draws
consumed), otherwise leave the gene (one draw consumed). -/
def mutateGenes (rs : Nat → ℚ) (mutation_rate : ℚ) :
    List ℚ → Nat → List ℚ × Nat
  | [], i => ([], i)
  | g :: gs, i =>
    if rs i < mutation_rate then
      let rest := mutateGenes rs mutation_rate gs (i+2)
      (rs (i+1) :: rest.1, rest.2)
    else
      let rest := mutateGenes rs mutation_rate gs (i+1)
      (g :: rest.1, rest.2)

/-- `mutate` (micro-ga.c:333-349): rewrites the gene buffer in place; the
genome's size and fitness fields are not touched. -/
def mutate (rs : Nat → ℚ) (mutation_rate : ℚ) (individual : micro_ga_genome_t)
    (i : Nat) : micro_ga_genome_t × Nat :=
  let r := mutateGenes rs mutation_rate individual.genes i
  (⟨individual.genome_size, r.1, individual.fitness⟩, r.2)

/-- Draw `k` fresh genes (population_init, micro-ga.c:359-363). -/
def freshGenes (rs : Nat → ℚ) : Nat → Nat → List ℚ × Nat
  | 0, i => ([], i)
  | k+1, i =>
    let rest := freshGenes rs k (i+1)
    (rs i :: rest.1, rest.2)

/-- `population_init` (micro-ga.c:351-374): seed each slot with fresh random
genes (fitness is the unevaluated marker `-1`, set by `micro_ga_init`); when
an acceptance callback is present and returns `0`, the slot is redrawn
(`n--`).  The retry loop can run forever, hence fuel. -/
def population_init (rs : Nat → ℚ) (accept : Option (micro_ga_genome_t → Nat))
    (genome_size : Nat) : Nat → Nat → Nat → Option (List micro_ga_genome_t × Nat)
  | 0, _, _ => none
  | _+1, 0, i => some ([], i)
  | fuel+1, n+1, i =>
    let r := freshGenes rs genome_size i
    let g : micro_ga_genome_t := ⟨genome_size, r.1, -1⟩
    let acceptable : Nat :=
      match accept with
      | none => 1
      | some a => a g
    if acceptable = 0 then
      population_init rs accept genome_size fuel (n+1) r.2
    else
      match population_init rs accept genome_size fuel n r.2 with
      | none => none
      | some (rest, iend) => some (g :: rest, iend)

/-- Result of `micro_ga_init`: an error return code, a completed engine
(return value 0), or divergence of the seeding retry loop. -/
inductive init_result_t where
  | err (code : Int)
  | seedDiverge
  | ok (ga : micro_ga_t) (idx : Nat)

/-- `micro_ga_init` (micro-ga.c:18-65).  The `ga == NULL || config == NULL`
pointer check (return `-1`) and `calloc` failure (return `-1`) concern raw
pointers/allocation and are outside this pure model; the configuration
validation returning `-2` and the success path are modelled exactly.
Note the source copies every config field except `debug`, which stays `0`
from the `memset`. -/
def micro_ga_init (rs : Nat → ℚ) (fuel : Nat) (config : micro_ga_config_t)
    (i : Nat) : init_result_t :=
  if config.population_size = 0 ∨ config.genome_size = 0 ∨
     config.fitness_fn.isNone = true ∨ config.mutation_rate < 0 ∨
     config.crossover_rate < 0 ∨ config.fitness_thresh < 0 then
    .err (-2)
  else
    match population_init rs config.acceptance_fn config.genome_size fuel
        config.population_size i with
    | none => .seedDiverge
    | some (inds, iend) =>
      .ok
        { generation := 0
          population_size := config.population_size
          mutation_rate := config.mutation_rate
          crossover_rate := config.crossover_rate
          fitness_thresh := config.fitness_thresh
          individuals := inds
          genome_size := config.genome_size
          fitness_fn := config.fitness_fn
          acceptance_fn := config.acceptance_fn
          ready := 1
          debug := 0 } iend

/-- The population-evaluation loop of `micro_ga_evolve` (micro-ga.c:107-109):
`fitness_fn` is invoked once per slot, unconditionally; the counter records
the number of invocations (one increment per call in the loop body). -/
def evalPopCounting (f : List ℚ → ℚ) :
    List micro_ga_genome_t → Nat → List micro_ga_genome_t × Nat
  | [], k => ([], k)
  | g :: gs, k =>
    let g' : micro_ga_genome_t := ⟨g.genome_size, g.genes, f g.genes⟩
    let rest := evalPopCounting f gs (k+1)
    (g' :: rest.1, rest.2)

/-- Total fitness (micro-ga.c:145-147). -/
def sumFitness : List micro_ga_genome_t → ℚ
  | [] => 0
  | g :: gs => g.fitness + sumFitness gs

/-- The cumulative probability distribution (micro-ga.c:152-156):
`prob[n] = prob[n-1] + fitness[n]/tfitness`, accumulator `c` starting at 0. -/
def cumulativeProbs (tfitness : ℚ) : List micro_ga_genome_t → ℚ → List ℚ
  | [], _ => []
  | g :: gs, c => (c + g.fitness / tfitness) :: cumulativeProbs tfitness gs (c + g.fitness / tfitness)

/-- The inner scan of the roulette wheel (micro-ga.c:169-174): the first `x`
with `r ≤ prob[x]`, counting from `x0`. -/
def findProbIdxAux (r : ℚ) : List ℚ → Nat → Option Nat
  | [], _ => none
  | p :: ps, x => if r ≤ p then some x else findProbIdxAux r ps (x+1)

/-- One roulette draw: the scan writes `parents[pcount] = x` on the first hit;
when no `x` satisfies `r ≤ prob[x]`, no write happens and the slot keeps its
previous (`stale`) content — initially `0` from `calloc`. -/
def findProbIdx (probs : List ℚ) (r : ℚ) (stale : Nat) : Nat :=
  match findProbIdxAux r probs 0 with
  | some x => x
  | none => stale

/-- The parent-selection loop (micro-ga.c:164-191): pick a mother and a father
slot per iteration and keep the pair only when the two slots differ, otherwise
redraw.  `s1`/`s2` are the current contents of the two `parents` slots being
written (stale values persist across failed attempts; after a kept pair the
next two slots are fresh zeros).  The loop can spin forever, hence fuel. -/
def selectionLoop (rs : Nat → ℚ) (probs : List ℚ) :
    Nat → Nat → Nat → Nat → Nat → Option (List (Nat × Nat) × Nat)
  | 0, _, _, _, _ => none
  | _+1, 0, _, _, i => some ([], i)
  | fuel+1, rem+1, s1, s2, i =>
    let x1 := findProbIdx probs (rs i) s1
    let x2 := findProbIdx probs (rs (i+1)) s2
    if x1 = x2 then
      selectionLoop rs probs fuel (rem+1) x1 x2 (i+2)
    else
      match selectionLoop rs probs fuel rem 0 0 (i+2) with
      | none => none
      | some (ps, iend) => some ((x1, x2) :: ps, iend)

/-- The breeding loop (micro-ga.c:205-235): one `crossover` per kept pair, in
order, parents taken from the sorted population by slot index. -/
def breedLoop (rs : Nat → ℚ) (rate : ℚ) (pop : List micro_ga_genome_t)
    (genome_size : Nat) : List (Nat × Nat) → Nat → List micro_ga_genome_t × Nat
  | [], i => ([], i)
  | (mi, fi) :: rest, i =>
    let mother := pop.getD mi defaultGenome
    let father := pop.getD fi defaultGenome
    let c := crossover rs rate mother father genome_size i
    let cs := breedLoop rs rate pop genome_size rest c.2
    (c.1 :: cs.1, cs.2)

/-- The mutation loop (micro-ga.c:238-240): `mutate` each staged child. -/
def mutateLoop (rs : Nat → ℚ) (mutation_rate : ℚ) :
    List micro_ga_genome_t → Nat → List micro_ga_genome_t × Nat
  | [], i => ([], i)
  | c :: cs, i =>
    let m := mutate rs mutation_rate c i
    let ms := mutateLoop rs mutation_rate cs m.2
    (m.1 :: ms.1, ms.2)

/-- `memcpy(dst.genes, src.genes, sizeof(float) * count)` over gene buffers:
the first `count` genes come from `src`, the rest of `dst` is untouched. -/
def memcpyGenes (dst src : List ℚ) (count : Nat) : List ℚ :=
  src.take count ++ dst.drop count

/-- One iteration of the replacement loop (micro-ga.c:245-257): copy the
child's genome size, `memcpy` that many genes over the old buffer, and mark
the fitness unevaluated (`-1`). -/
def replaceOne (old child : micro_ga_genome_t) : micro_ga_genome_t :=
  ⟨child.genome_size, memcpyGenes old.genes child.genes child.genome_size, -1⟩

/-- The replacement loop: overwrite slots `0 .. k-1` with the staged children
in order; the remaining slots (in particular the elite slot) are untouched. -/
def replaceLoop : List micro_ga_genome_t → List micro_ga_genome_t → Nat →
    List micro_ga_genome_t
  | pop, _, 0 => pop
  | [], _, _+1 => []
  | g :: gs, [], _+1 => g :: gs
  | g :: gs, c :: cs, k+1 => replaceOne g c :: replaceLoop gs cs k

/-- Which of the three scratch `calloc`s of `micro_ga_evolve` succeed. -/
structure alloc_t where
  probOk : Bool
  parentsOk : Bool
  childrenOk : Bool

/-- All allocations succeed. -/
def allocOk : alloc_t := ⟨true, true, true⟩

/-- With `parents == NULL`, the selection loop crashes at its first actual
write `parents[pcount] = x` (micro-ga.c:171, 179), i.e. at the first draw for
which the probability scan finds an index; if no draw ever hits, nothing is
written and the loop spins forever (the stale pair `0 = 0` always redraws). -/
def parentsNullCrash (rs : Nat → ℚ) (probs : List ℚ) : Nat → Nat → Bool
  | 0, _ => false
  | fuel+1, i =>
    if (findProbIdxAux (rs i) probs 0).isSome then true
    else if (findProbIdxAux (rs (i+1)) probs 0).isSome then true
    else parentsNullCrash rs probs fuel (i+2)

/-- Outcome of the body of `micro_ga_evolve` after evaluation: a write through
a `NULL` scratch buffer (with the population contents at that moment), a
selection loop still spinning when the fuel runs out, or the new population
and final random cursor. -/
inductive core_result_t where
  | nullDeref (pop : List micro_ga_genome_t)
  | outOfFuel
  | ok (pop : List micro_ga_genome_t) (idx : Nat)

/-- Result of `micro_ga_evolve`: a failed `assert`, a crash on a `NULL`
scratch-buffer write, fuel exhaustion of the selection loop, or the updated
engine. -/
inductive step_result_t where
  | assertFail
  | nullDeref (pop : List micro_ga_genome_t)
  | outOfFuel
  | ok (ga : micro_ga_t) (idx : Nat)

/-- `micro_ga_evolve` (micro-ga.c:90-266) after the evaluation loop, starting
from the evaluated population:
allocate the scratch buffers (a failed `children` calloc already crashes in
the gene-buffer allocation loop at micro-ga.c:122-123, before the `NULL`
check); the `NULL` check at micro-ga.c:126-130 only prints — the `abort()` is
commented out, so execution continues; sort by ascending fitness; build the
cumulative distribution (crashing on the `prob[n]` write if `prob` is `NULL`);
select `population_size - 1` distinct parent pairs (crashing on the first
`parents` write if `parents` is `NULL`); breed one child per pair; mutate the
children; replace slots `0 .. population_size-2` with them. -/
def micro_ga_evolve_core (rs : Nat → ℚ) (fuel : Nat) (alloc : alloc_t)
    (population_size genome_size : Nat) (crossover_rate mutation_rate : ℚ)
    (evaluated : List micro_ga_genome_t) (i : Nat) : core_result_t :=
  if alloc.childrenOk = false ∧ population_size ≠ 0 then
    .nullDeref evaluated
  else
    let sorted := List.insertionSort gaLe evaluated
    if alloc.probOk = false ∧ population_size ≠ 0 then
      .nullDeref sorted
    else
      let probs := cumulativeProbs (sumFitness sorted) sorted 0
      let replace := population_size - 1
      if alloc.parentsOk = false ∧ replace ≠ 0 then
        (if parentsNullCrash rs probs fuel i then .nullDeref sorted else .outOfFuel)
      else
        match selectionLoop rs probs fuel replace 0 0 i with
        | none => .outOfFuel
        | some (pairs, i1) =>
          let c := breedLoop rs crossover_rate sorted genome_size pairs i1
          let m := mutateLoop rs mutation_rate c.1 c.2
          .ok (replaceLoop sorted m.1 replace) m.2

/-- Lift a core outcome back onto the engine: on success only `individuals`
changes (the source updates nothing else, not even `generation`). -/
def step_wrap (ga : micro_ga_t) : core_result_t → step_result_t
  | .nullDeref p => .nullDeref p
  | .outOfFuel => .outOfFuel
  | .ok p iend => .ok { ga with individuals := p } iend

/-- `micro_ga_evolve` (micro-ga.c:90-266): `assert(ga->ready == 1)`,
`assert(ga->fitness_fn != NULL)`, then evaluate every slot and run the body. -/
def micro_ga_evolve (rs : Nat → ℚ) (fuel : Nat) (alloc : alloc_t)
    (ga : micro_ga_t) (i : Nat) : step_result_t :=
  if ga.ready = 1 then
    match ga.fitness_fn with
    | none => .assertFail
    | some f =>
      step_wrap ga (micro_ga_evolve_core rs fuel alloc ga.population_size
        ga.genome_size ga.crossover_rate ga.mutation_rate
        (evalPopCounting f ga.individuals 0).1 i)
  else .assertFail

/-- Result of `micro_ga_sort`: the function performs no readiness check, so
`assertFail` is never produced; it is a constructor only so that the claimed
assertion behaviour is statable. -/
inductive sort_result_t where
  | assertFail
  | ok (ga : micro_ga_t)

/-- `micro_ga_sort` (micro-ga.c:268-274): unconditionally `qsort` the
population by ascending fitness; there is no `assert` and no `ready` check. -/
def micro_ga_sort (ga : micro_ga_t) : sort_result_t :=
  .ok { ga with individuals := List.insertionSort gaLe ga.individuals }

/-- Population/fitness content of a step outcome (used to compare two runs). -/
def step_individuals : step_result_t → Option (List micro_ga_genome_t × Nat)
  | .ok ga iend => some (ga.individuals, iend)
  | _ => none

/-- A concrete fitness callback for test engines: fitness is the first gene. -/
def fitHead : List ℚ → ℚ := fun gs => gs.headD 0

/-- A concrete random stream for test runs: first draw 0, then 1/2 forever.
All draws lie in `[0,1)`. -/
def rsW : Nat → ℚ := fun n => if n = 0 then 0 else 1/2

/-- A concrete initialized two-individual engine (genome length 1, mutation
rate 0, crossover rate 0), with the population already evaluated under
`fitHead` and deliberately not sorted by fitness. -/
def ga2 : micro_ga_t :=
  { generation := 0
    population_size := 2
    mutation_rate := 0
    crossover_rate := 0
    fitness_thresh := 0
    individuals := [⟨1, [3/4], 3/4⟩, ⟨1, [1/4], 1/4⟩]
    genome_size := 1
    fitness_fn := some fitHead
    acceptance_fn := none
    ready := 1
    debug := 0 }

/-- An engine whose `ready` flag is not set (never initialized). -/
def gaNotReady : micro_ga_t :=
  { generation := 0
    population_size := 2
    mutation_rate := 0
    crossover_rate := 0
    fitness_thresh := 0
    individuals := [⟨1, [3/4], 3/4⟩, ⟨1, [1/4], 1/4⟩]
    genome_size := 1
    fitness_fn := some fitHead
    acceptance_fn := none
    ready := 0
    debug := 0 }

/-- A concrete valid configuration. -/
def cfgW : micro_ga_config_t :=
  ⟨2, 1, 0, 0, 0, some fitHead, none, 0⟩

/-- A concrete invalid configuration (`population_size = 0`). -/
def cfgBad : micro_ga_config_t :=
  ⟨0, 1, 0, 0, 0, some fitHead, none, 0⟩

/-- The spec's selection-distribution example: fitness values
`[0.1, 0.5, 0.9]`, already sorted ascending. -/
def popC7 : List micro_ga_genome_t :=
  [⟨0, [], 1/10⟩, ⟨0, [], 1/2⟩, ⟨0, [], 9/10⟩]

theorem evalPopCounting_fst (f : List ℚ → ℚ) :
    ∀ (pop : List micro_ga_genome_t) (k : Nat),
      (evalPopCounting f pop k).1 =
        pop.map (fun g => ⟨g.genome_size, g.genes, f g.genes⟩)
  | [], _ => rfl
  | g :: gs, k => by
    simp [evalPopCounting, evalPopCounting_fst f gs (k+1)]

theorem evalPopCounting_snd (f : List ℚ → ℚ) :
    ∀ (pop : List micro_ga_genome_t) (k : Nat),
      (evalPopCounting f pop k).2 = k + pop.length
  | [], _ => by simp [evalPopCounting]
  | g :: gs, k => by
    simp [evalPopCounting, evalPopCounting_snd f gs (k+1)]
    omega

theorem evalPopCounting_of_evaluated (f : List ℚ → ℚ)
    (pop : List micro_ga_genome_t) (k : Nat)
    (h : ∀ g ∈ pop, g.fitness = f g.genes) :
    (evalPopCounting f pop k).1 = pop := by
  rw [evalPopCounting_fst]
  induction pop with
  | nil => rfl
  | cons g gs ih =>
    simp only [List.map_cons]
    rw [ih (fun x hx => h x (List.mem_cons_of_mem g hx))]
    have hg : f g.genes = g.fitness := (h g (List.mem_cons_self g gs)).symm
    cases g
    simp_all

theorem crossoverGenes_length (rs : Nat → ℚ) (rate : ℚ) :
    ∀ (ms fs : List ℚ) (i : Nat),
      (crossoverGenes rs rate ms fs i).1.length = min ms.length fs.length
  | [], [], _ => rfl
  | [], _ :: _, _ => rfl
  | _ :: _, [], _ => rfl
  | _ :: ms, _ :: fs, i => by
    simp [crossoverGenes, crossoverGenes_length rs rate ms fs (i+2)]
    omega

theorem crossoverGenes_snd (rs : Nat → ℚ) (rate : ℚ) :
    ∀ (ms fs : List ℚ) (i : Nat), ms.length = fs.length →
      (crossoverGenes rs rate ms fs i).2 = i + 2 * ms.length
  | [], [], _, _ => rfl
  | [], _ :: _, _, h => by simp at h
  | _ :: _, [], _, h => by simp at h
  | _ :: ms, _ :: fs, i, h => by
    simp only [List.length_cons, Nat.succ.injEq] at h
    simp [crossoverGenes, crossoverGenes_snd rs rate ms fs (i+2) h]
    omega

theorem crossoverGenes_getD (rs : Nat → ℚ) (rate : ℚ) :
    ∀ (ms fs : List ℚ) (i : Nat), ms.length = fs.length →
      ∀ j, j < ms.length →
        (crossoverGenes rs rate ms fs i).1.getD j 0 =
          crossoverGene rs rate (ms.getD j 0) (fs.getD j 0) (i + 2 * j)
  | [], [], _, _, j, hj => by simp at hj
  | [], _ :: _, _, h, _, _ => by simp at h
  | _ :: _, [], _, h, _, _ => by simp at h
  | mg :: ms, fg :: fs, i, h, j, hj => by
    simp only [List.length_cons, Nat.succ.injEq] at h
    cases j with
    | zero => simp [crossoverGenes]
    | succ j' =>
      have hj' : j' < ms.length := by
        simpa [Nat.succ_lt_succ_iff] using hj
      have ih := crossoverGenes_getD rs rate ms fs (i+2) h j' hj'
      simp only [crossoverGenes, List.getD_cons_succ]
      rw [ih]
      ring_nf

theorem mutateGenes_length (rs : Nat → ℚ) (m : ℚ) :
    ∀ (gs : List ℚ) (i : Nat), (mutateGenes rs m gs i).1.length = gs.length
  | [], _ => rfl
  | g :: gs, i => by
    by_cases h : rs i < m <;>
      simp [mutateGenes, h, mutateGenes_length rs m gs]

theorem mutateGenes_zero (rs : Nat → ℚ) (hrs : ∀ n, 0 ≤ rs n) :
    ∀ (gs : List ℚ) (i : Nat), mutateGenes rs 0 gs i = (gs, i + gs.length)
  | [], i => by simp [mutateGenes]
  | g :: gs, i => by
    have h : ¬ rs i < 0 := not_lt.mpr (hrs i)
    simp [mutateGenes, h, mutateGenes_zero rs hrs gs (i+1)]
    omega

theorem mutateGenes_one (rs : Nat → ℚ) (hrs : ∀ n, rs n < 1) :
    ∀ (gs : List ℚ) (i : Nat), ∀ j, j < gs.length →
      (mutateGenes rs 1 gs i).1.getD j 0 = rs (i + 2 * j + 1)
  | [], _, j, hj => by simp at hj
  | g :: gs, i, j, hj => by
    have h : rs i < 1 := hrs i
    cases j with
    | zero => simp [mutateGenes, h]
    | succ j' =>
      have hj' : j' < gs.length := by
        simpa [Nat.succ_lt_succ_iff] using hj
      have ih := mutateGenes_one rs hrs gs (i+2) j' hj'
      simp only [mutateGenes, h, if_true, List.getD_cons_succ]
      rw [ih]
      ring_nf

theorem findProbIdxAux_lt (r : ℚ) :
    ∀ (ps : List ℚ) (x0 x : Nat), findProbIdxAux r ps x0 = some x →
      x < x0 + ps.length
  | [], _, _, h => by simp [findProbIdxAux] at h
  | p :: ps, x0, x, h => by
    by_cases hr : r ≤ p
    · simp [findProbIdxAux, hr] at h
      simp only [List.length_cons]
      omega
    · simp only [findProbIdxAux, hr, if_false] at h
      have := findProbIdxAux_lt r ps (x0+1) x h
      simp only [List.length_cons]
      omega

theorem findProbIdx_lt (probs : List ℚ) (r : ℚ) (stale : Nat)
    (h : stale < probs.length) : findProbIdx probs r stale < probs.length := by
  unfold findProbIdx
  cases hfind : findProbIdxAux r probs 0 with
  | none => simpa using h
  | some x =>
    have hx := findProbIdxAux_lt r probs 0 x hfind
    simp only [Nat.zero_add] at hx
    simpa using hx

theorem selectionLoop_length (rs : Nat → ℚ) (probs : List ℚ) :
    ∀ (fuel rem s1 s2 i : Nat) (ps : List (Nat × Nat)) (iend : Nat),
      selectionLoop rs probs fuel rem s1 s2 i = some (ps, iend) →
      ps.length = rem
  | 0, _, _, _, _, _, _, h => by simp [selectionLoop] at h
  | fuel+1, 0, _, _, _, ps, iend, h => by
    simp [selectionLoop] at h
    simp [h.1]
  | fuel+1, rem+1, s1, s2, i, ps, iend, h => by
    simp only [selectionLoop] at h
    by_cases heq : findProbIdx probs (rs i) s1 = findProbIdx probs (rs (i+1)) s2
    · rw [if_pos heq] at h
      exact selectionLoop_length rs probs fuel (rem+1) _ _ (i+2) ps iend h
    · rw [if_neg heq] at h
      cases hrec : selectionLoop rs probs fuel rem 0 0 (i+2) with
      | none => rw [hrec] at h; simp at h
      | some v =>
        obtain ⟨ps', iend'⟩ := v
        rw [hrec] at h
        simp only [Option.some.injEq, Prod.mk.injEq] at h
        have := selectionLoop_length rs probs fuel rem 0 0 (i+2) ps' iend' hrec
        rw [← h.1]
        simp [this]

theorem selectionLoop_bounds (rs : Nat → ℚ) (probs : List ℚ)
    (hlen : 0 < probs.length) :
    ∀ (fuel rem s1 s2 i : Nat) (ps : List (Nat × Nat)) (iend : Nat),
      s1 < probs.length → s2 < probs.length →
      selectionLoop rs probs fuel rem s1 s2 i = some (ps, iend) →
      ∀ p ∈ ps, p.1 < probs.length ∧ p.2 < probs.length
  | 0, _, _, _, _, _, _, _, _, h => by simp [selectionLoop] at h
  | fuel+1, 0, _, _, _, ps, iend, _, _, h => by
    simp [selectionLoop] at h
    simp [h.1]
  | fuel+1, rem+1, s1, s2, i, ps, iend, hs1, hs2, h => by
    simp only [selectionLoop] at h
    have hx1 : findProbIdx probs (rs i) s1 < probs.length :=
      findProbIdx_lt probs (rs i) s1 hs1
    have hx2 : findProbIdx probs (rs (i+1)) s2 < probs.length :=
      findProbIdx_lt probs (rs (i+1)) s2 hs2
    by_cases heq : findProbIdx probs (rs i) s1 = findProbIdx probs (rs (i+1)) s2
    · rw [if_pos heq] at h
      exact selectionLoop_bounds rs probs hlen fuel (rem+1) _ _ (i+2) ps iend hx1 hx2 h
    · rw [if_neg heq] at h
      cases hrec : selectionLoop rs probs fuel rem 0 0 (i+2) with
      | none => rw [hrec] at h; simp at h
      | some v =>
        obtain ⟨ps', iend'⟩ := v
        rw [hrec] at h
        simp only [Option.some.injEq, Prod.mk.injEq] at h
        intro p hp
        rw [← h.1] at hp
        rcases List.mem_cons.mp hp with hph | hpt
        · rw [hph]; exact ⟨hx1, hx2⟩
        · exact selectionLoop_bounds rs probs hlen fuel rem 0 0 (i+2) ps' iend'
            hlen hlen hrec p hpt

theorem breedLoop_pred (rs : Nat → ℚ) (rate : ℚ) (pop : List micro_ga_genome_t)
    (gsize : Nat) (hpop : ∀ g ∈ pop, g.genes.length = gsize) :
    ∀ (pairs : List (Nat × Nat)) (i : Nat),
      (∀ p ∈ pairs, p.1 < pop.length ∧ p.2 < pop.length) →
      ∀ c ∈ (breedLoop rs rate pop gsize pairs i).1,
        c.genome_size = gsize ∧ c.genes.length = gsize
  | [], _, _, c, hc => by simp [breedLoop] at hc
  | (mi, fi) :: rest, i, hb, c, hc => by
    simp only [breedLoop] at hc
    rcases List.mem_cons.mp hc with hch | hct
    · have hmi : mi < pop.length := (hb (mi, fi) (List.mem_cons_self _ _)).1
      have hfi : fi < pop.length := (hb (mi, fi) (List.mem_cons_self _ _)).2
      have hmem_m : pop.getD mi defaultGenome ∈ pop := by
        rw [List.getD_eq_getElem pop defaultGenome hmi]
        exact List.getElem_mem hmi
      have hmem_f : pop.getD fi defaultGenome ∈ pop := by
        rw [List.getD_eq_getElem pop defaultGenome hfi]
        exact List.getElem_mem hfi
      have hm := hpop _ hmem_m
      have hf := hpop _ hmem_f
      rw [hch]
      refine ⟨rfl, ?_⟩
      simp only [crossover]
      rw [crossoverGenes_length, hm, hf]
      simp
    · exact breedLoop_pred rs rate pop gsize hpop rest _
        (fun p hp => hb p (List.mem_cons_of_mem _ hp)) c hct

theorem mutateLoop_pred (rs : Nat → ℚ) (m : ℚ) (P : micro_ga_genome_t → Prop)
    (hP : ∀ c c', c'.genome_size = c.genome_size →
      c'.genes.length = c.genes.length → P c → P c') :
    ∀ (cs : List micro_ga_genome_t) (i : Nat), (∀ c ∈ cs, P c) →
      ∀ c' ∈ (mutateLoop rs m cs i).1, P c'
  | [], _, _, c', hc' => by simp [mutateLoop] at hc'
  | c :: cs, i, hcs, c', hc' => by
    simp only [mutateLoop] at hc'
    rcases List.mem_cons.mp hc' with hh | ht
    · refine hP c c' ?_ ?_ (hcs c (List.mem_cons_self _ _)) <;>
        simp [hh, mutate, mutateGenes_length]
    · exact mutateLoop_pred rs m P hP cs _
        (fun x hx => hcs x (List.mem_cons_of_mem _ hx)) c' ht

theorem replaceLoop_zero :
    ∀ (pop cs : List micro_ga_genome_t), replaceLoop pop cs 0 = pop
  | [], [] => rfl
  | [], _ :: _ => rfl
  | _ :: _, [] => rfl
  | _ :: _, _ :: _ => rfl

theorem replaceLoop_length :
    ∀ (pop cs : List micro_ga_genome_t) (k : Nat),
      (replaceLoop pop cs k).length = pop.length
  | pop, cs, 0 => by rw [replaceLoop_zero]
  | [], _, _+1 => rfl
  | _ :: _, [], _+1 => rfl
  | g :: gs, c :: cs, k+1 => by
    simp [replaceLoop, replaceLoop_length gs cs k]

theorem replaceLoop_getD_of_le (d : micro_ga_genome_t) :
    ∀ (pop cs : List micro_ga_genome_t) (k j : Nat), k ≤ j →
      (replaceLoop pop cs k).getD j d = pop.getD j d
  | pop, cs, 0, _, _ => by rw [replaceLoop_zero]
  | [], _, _+1, _, _ => rfl
  | _ :: _, [], _+1, _, _ => rfl
  | g :: gs, c :: cs, k+1, j, hj => by
    cases j with
    | zero => omega
    | succ j' =>
      simp only [replaceLoop, List.getD_cons_succ]
      exact replaceLoop_getD_of_le d gs cs k j' (by omega)

theorem replaceLoop_pred (gsize : Nat) :
    ∀ (pop cs : List micro_ga_genome_t) (k : Nat),
      (∀ g ∈ pop, g.genome_size = gsize ∧ g.genes.length = gsize) →
      (∀ c ∈ cs, c.genome_size = gsize ∧ c.genes.length = gsize) →
      ∀ g ∈ replaceLoop pop cs k,
        g.genome_size = gsize ∧ g.genes.length = gsize
  | pop, cs, 0, hpop, _, g, hg => by
    rw [replaceLoop_zero] at hg
    exact hpop g hg
  | [], _, _+1, _, _, g, hg => by simp [replaceLoop] at hg
  | _ :: _, [], _+1, hpop, _, g, hg => hpop g hg
  | p :: ps, c :: cs, k+1, hpop, hcs, g, hg => by
    simp only [replaceLoop] at hg
    rcases List.mem_cons.mp hg with hh | ht
    · have hp := hpop p (List.mem_cons_self _ _)
      have hc := hcs c (List.mem_cons_self _ _)
      rw [hh]
      refine ⟨hc.1, ?_⟩
      simp only [replaceOne, memcpyGenes, List.length_append,
        List.length_take, List.length_drop, hp.2, hc.2]
      omega
    · exact replaceLoop_pred gsize ps cs k
        (fun x hx => hpop x (List.mem_cons_of_mem _ hx))
        (fun x hx => hcs x (List.mem_cons_of_mem _ hx)) g ht

theorem sorted_getLast_max :
    ∀ (l : List micro_ga_genome_t), List.Sorted gaLe l → (hne : l ≠ []) →
      ∀ x ∈ l, x.fitness ≤ (l.getLast hne).fitness
  | [], _, hne, _, _ => absurd rfl hne
  | [a], _, _, x, hx => by
    simp only [List.mem_singleton] at hx
    simp [hx, List.getLast]
  | a :: b :: t, hs, hne, x, hx => by
    rw [List.sorted_cons] at hs
    rw [List.getLast_cons (l := b :: t) (by simp)]
    rcases List.mem_cons.mp hx with hxa | hxbt
    · have hlast_mem : (b :: t).getLast (by simp) ∈ b :: t :=
        List.getLast_mem _
      have := hs.1 _ hlast_mem
      rw [hxa]
      exact this
    · exact sorted_getLast_max (b :: t) hs.2 (by simp) x hxbt

theorem cumulativeProbs_getD (tf : ℚ) :
    ∀ (pop : List micro_ga_genome_t) (c : ℚ) (j : Nat), j < pop.length →
      (cumulativeProbs tf pop c).getD j 0 =
        (if j = 0 then c else (cumulativeProbs tf pop c).getD (j-1) 0) +
          (pop.getD j defaultGenome).fitness / tf
  | [], _, j, hj => by simp at hj
  | g :: gs, c, 0, _ => by simp [cumulativeProbs]
  | g :: gs, c, j+1, hj => by
    have hj' : j < gs.length := by
      simpa [Nat.succ_lt_succ_iff] using hj
    have ih := cumulativeProbs_getD tf gs (c + g.fitness / tf) j hj'
    simp only [cumulativeProbs, List.getD_cons_succ, Nat.add_sub_cancel,
      Nat.succ_ne_zero, if_false]
    rw [ih]
    cases j with
    | zero => simp [cumulativeProbs]
    | succ j' => simp [cumulativeProbs]

/-- All draws of the concrete test stream lie in `[0,1)`. -/
theorem rsW_bounds : ∀ n, 0 ≤ rsW n ∧ rsW n < 1 := by
  intro n
  unfold rsW
  split <;> norm_num

/-- C5: per-gene crossover semantics.  With parents of equal length `gsize`
and crossover rate in `[0,1]`, the child has genome size `gsize`, the
unevaluated fitness marker `-1`, `gsize` genes, and consumes two draws per
gene; at each position `j`, if the first draw `u = rs (i+2j)` satisfies
`u > c` the gene is the blend `w*mother + (1-w)*father` of the second draw
`w = rs (i+2j+1)` and lies in the closed interval between the parents' genes,
otherwise it is copied verbatim from the mother when the coin draw exceeds
`1/2` and from the father otherwise — in particular it equals one parent's
gene exactly. -/
theorem crossover_per_gene_spec (rs : Nat → ℚ) (rate : ℚ)
    (mother father : micro_ga_genome_t) (gsize i : Nat)
    (hm : mother.genes.length = gsize) (hf : father.genes.length = gsize)
    (hrate0 : 0 ≤ rate) (hrate1 : rate ≤ 1)
    (hrs : ∀ n, 0 ≤ rs n ∧ rs n < 1) :
    (crossover rs rate mother father gsize i).1.genome_size = gsize ∧
    (crossover rs rate mother father gsize i).1.fitness = -1 ∧
    (crossover rs rate mother father gsize i).1.genes.length = gsize ∧
    (crossover rs rate mother father gsize i).2 = i + 2 * gsize ∧
    ∀ j, j < gsize →
      (rate < rs (i + 2 * j) →
        (crossover rs rate mother father gsize i).1.genes.getD j 0 =
          rs (i + 2 * j + 1) * mother.genes.getD j 0 +
            (1 - rs (i + 2 * j + 1)) * father.genes.getD j 0 ∧
        min (mother.genes.getD j 0) (father.genes.getD j 0) ≤
          (crossover rs rate mother father gsize i).1.genes.getD j 0 ∧
        (crossover rs rate mother father gsize i).1.genes.getD j 0 ≤
          max (mother.genes.getD j 0) (father.genes.getD j 0)) ∧
      (¬ rate < rs (i + 2 * j) →
        ((crossover rs rate mother father gsize i).1.genes.getD j 0 =
          if 1/2 < rs (i + 2 * j + 1) then mother.genes.getD j 0
          else father.genes.getD j 0) ∧
        ((crossover rs rate mother father gsize i).1.genes.getD j 0 =
            mother.genes.getD j 0 ∨
         (crossover rs rate mother father gsize i).1.genes.getD j 0 =
            father.genes.getD j 0)) := by
  have heq : mother.genes.length = father.genes.length := by rw [hm, hf]
  refine ⟨rfl, rfl, ?_, ?_, ?_⟩
  · simp only [crossover]
    rw [crossoverGenes_length, hm, hf]
    simp
  · simp only [crossover]
    rw [crossoverGenes_snd rs rate _ _ i heq, hm]
  · intro j hj
    have hval : (crossover rs rate mother father gsize i).1.genes.getD j 0 =
        crossoverGene rs rate (mother.genes.getD j 0) (father.genes.getD j 0)
          (i + 2 * j) := by
      simp only [crossover]
      exact crossoverGenes_getD rs rate mother.genes father.genes i heq j
        (by rw [hm]; exact hj)
    obtain ⟨hw0, hw1⟩ := hrs (i + 2 * j + 1)
    constructor
    · intro hb
      rw [hval]
      unfold crossoverGene
      rw [if_pos hb]
      refine ⟨rfl, ?_, ?_⟩
      · rcases le_total (mother.genes.getD j 0) (father.genes.getD j 0) with hmf | hmf
        · rw [min_eq_left hmf]
          have h1 : (0:ℚ) ≤ 1 - rs (i + 2 * j + 1) := by linarith
          have h2 : (0:ℚ) ≤ father.genes.getD j 0 - mother.genes.getD j 0 := by
            linarith
          nlinarith [mul_nonneg h1 h2]
        · rw [min_eq_right hmf]
          have h2 : (0:ℚ) ≤ mother.genes.getD j 0 - father.genes.getD j 0 := by
            linarith
          nlinarith [mul_nonneg hw0 h2]
      · rcases le_total (mother.genes.getD j 0) (father.genes.getD j 0) with hmf | hmf
        · rw [max_eq_right hmf]
          have h2 : (0:ℚ) ≤ father.genes.getD j 0 - mother.genes.getD j 0 := by
            linarith
          nlinarith [mul_nonneg hw0 h2]
        · rw [max_eq_left hmf]
          have h1 : (0:ℚ) ≤ 1 - rs (i + 2 * j + 1) := by linarith
          have h2 : (0:ℚ) ≤ mother.genes.getD j 0 - father.genes.getD j 0 := by
            linarith
          nlinarith [mul_nonneg h1 h2]
    · intro hb
      rw [hval]
      unfold crossoverGene
      rw [if_neg hb]
      refine ⟨rfl, ?_⟩
      by_cases hw : (1:ℚ)/2 < rs (i + 2 * j + 1)
      · left
        rw [if_pos hw]
      · right
        rw [if_neg hw]

/-- Witness for C5 at a concrete input (blend path: rate 0, first draw 1/2). -/
theorem crossover_per_gene_spec_witness :
    (⟨1, [3/4], 3/4⟩ : micro_ga_genome_t).genes.length = 1 ∧
    (crossover rsW 0 ⟨1, [3/4], 3/4⟩ ⟨1, [1/4], 1/4⟩ 1 2).1.fitness = -1 ∧
    (crossover rsW 0 ⟨1, [3/4], 3/4⟩ ⟨1, [1/4], 1/4⟩ 1 2).2 = 2 + 2 * 1 := by
  have h := crossover_per_gene_spec rsW 0 ⟨1, [3/4], 3/4⟩ ⟨1, [1/4], 1/4⟩ 1 2
    rfl rfl (by norm_num) (by norm_num) rsW_bounds
  exact ⟨rfl, h.2.1, h.2.2.2.1⟩

/-- C6: mutation at the boundary rates.  With every draw in `[0,1)`:
`mutate` at rate 0 is the identity on the genome; `mutate` at rate 1
replaces every gene with the following fresh draw (hence a value in `[0,1)`)
and alters neither the genome-size field, the fitness field, nor the number
of genes. -/
theorem mutate_boundary_rates (rs : Nat → ℚ) (ind : micro_ga_genome_t)
    (i : Nat) (hrs : ∀ n, 0 ≤ rs n ∧ rs n < 1) :
    (mutate rs 0 ind i).1 = ind ∧
    (mutate rs 1 ind i).1.genome_size = ind.genome_size ∧
    (mutate rs 1 ind i).1.fitness = ind.fitness ∧
    (mutate rs 1 ind i).1.genes.length = ind.genes.length ∧
    ∀ j, j < ind.genes.length →
      (mutate rs 1 ind i).1.genes.getD j 0 = rs (i + 2 * j + 1) ∧
      0 ≤ (mutate rs 1 ind i).1.genes.getD j 0 ∧
      (mutate rs 1 ind i).1.genes.getD j 0 < 1 := by
  refine ⟨?_, rfl, rfl, ?_, ?_⟩
  · have h0 := mutateGenes_zero rs (fun n => (hrs n).1) ind.genes i
    simp only [mutate, h0]
  · simp only [mutate]
    exact mutateGenes_length rs 1 ind.genes i
  · intro j hj
    have h1 := mutateGenes_one rs (fun n => (hrs n).2) ind.genes i j hj
    refine ⟨?_, ?_, ?_⟩
    · simpa only [mutate] using h1
    · rw [show (mutate rs 1 ind i).1.genes = (mutateGenes rs 1 ind.genes i).1
        from rfl, h1]
      exact (hrs (i + 2 * j + 1)).1
    · rw [show (mutate rs 1 ind i).1.genes = (mutateGenes rs 1 ind.genes i).1
        from rfl, h1]
      exact (hrs (i + 2 * j + 1)).2

/-- Witness for C6 at a concrete genome. -/
theorem mutate_boundary_rates_witness :
    (mutate rsW 0 ⟨1, [3/4], 3/4⟩ 0).1 = ⟨1, [3/4], 3/4⟩ ∧
    (mutate rsW 1 ⟨1, [3/4], 3/4⟩ 0).1.fitness = 3/4 := by
  have h := mutate_boundary_rates rsW ⟨1, [3/4], 3/4⟩ 0 rsW_bounds
  exact ⟨h.1, h.2.2.1⟩

/-- Length of the cumulative distribution equals the population length. -/
theorem cumulativeProbs_length (tf : ℚ) :
    ∀ (pop : List micro_ga_genome_t) (c : ℚ),
      (cumulativeProbs tf pop c).length = pop.length
  | [], _ => rfl
  | g :: gs, c => by
    simp [cumulativeProbs, cumulativeProbs_length tf gs]

/-- C7: the cumulative selection distribution used by `micro_ga_evolve` on
the sorted population satisfies `prob[j] = prob[j-1] + fitness[j]/tfitness`
with `prob[-1] = 0`; and on the spec's example of sorted fitness values
`[0.1, 0.5, 0.9]` (total `3/2`) the cumulative probabilities are within
`1/10000` of `0.0667`, `0.4000`, `1.0000`. -/
theorem cumulative_probs_spec :
    (∀ (tf : ℚ) (pop : List micro_ga_genome_t) (j : Nat), j < pop.length →
      (cumulativeProbs tf pop 0).getD j 0 =
        (if j = 0 then 0 else (cumulativeProbs tf pop 0).getD (j-1) 0) +
          (pop.getD j defaultGenome).fitness / tf) ∧
    sumFitness popC7 = 3/2 ∧
    |(cumulativeProbs (sumFitness popC7) popC7 0).getD 0 0 - 667/10000| ≤ 1/10000 ∧
    |(cumulativeProbs (sumFitness popC7) popC7 0).getD 1 0 - 4000/10000| ≤ 1/10000 ∧
    |(cumulativeProbs (sumFitness popC7) popC7 0).getD 2 0 - 10000/10000| ≤ 1/10000 := by
  refine ⟨?_, by decide, by decide, by decide, by decide⟩
  intro tf pop j hj
  exact cumulativeProbs_getD tf pop 0 j hj

/-- Witness for C7's general recurrence at a concrete index. -/
theorem cumulative_probs_spec_witness :
    (1 : Nat) < popC7.length ∧
    (cumulativeProbs (3/2) popC7 0).getD 1 0 =
      (if (1 : Nat) = 0 then 0 else (cumulativeProbs (3/2) popC7 0).getD 0 0) +
        (popC7.getD 1 defaultGenome).fitness / (3/2) :=
  ⟨by decide, cumulative_probs_spec.1 (3/2) popC7 1 (by decide)⟩

/-- C8 counterexample: `micro_ga_sort` performs no readiness check — on a
never-initialized engine (`ready ≠ 1`) it does not trigger any assertion, it
simply sorts, contradicting the claim that both `micro_ga_evolve` and
`micro_ga_sort` assert readiness. -/
theorem micro_ga_sort_no_assert_counterexample :
    gaNotReady.ready ≠ 1 ∧
    micro_ga_sort gaNotReady ≠ sort_result_t.assertFail := by
  refine ⟨by decide, ?_⟩
  intro h
  simp [micro_ga_sort] at h

/-- C8 amended: invoking `micro_ga_evolve` on an engine that has not been
successfully initialized (`ready` flag not 1) triggers the fatal assertion;
`micro_ga_sort`, by contrast, performs no readiness check and unconditionally
sorts the population by ascending fitness. -/
theorem misuse_checks_amended :
    (∀ (rs : Nat → ℚ) (fuel : Nat) (alloc : alloc_t) (ga : micro_ga_t)
      (i : Nat), ga.ready ≠ 1 →
        micro_ga_evolve rs fuel alloc ga i = .assertFail) ∧
    (∀ ga : micro_ga_t, micro_ga_sort ga =
      .ok { ga with individuals := List.insertionSort gaLe ga.individuals }) := by
  constructor
  · intro rs fuel alloc ga i h
    unfold micro_ga_evolve
    rw [if_neg h]
  · intro ga
    rfl

/-- Witness for C8's amended claim at a concrete non-ready engine. -/
theorem misuse_checks_amended_witness :
    gaNotReady.ready ≠ 1 ∧
    micro_ga_evolve rsW 1 allocOk gaNotReady 0 = .assertFail :=
  ⟨by decide, misuse_checks_amended.1 rsW 1 allocOk gaNotReady 0 (by decide)⟩

/-- C2 (documenting the defect): on an initialized engine where the `prob`
scratch `calloc` fails, `micro_ga_evolve` does not abort the step: the
failure is printed but the commented-out `abort()` lets execution continue —
the population is sorted and then the `prob[n]` write dereferences the null
buffer (crash / undefined behaviour).  At the crash the population (here
`[fitness 1/4, fitness 3/4]`) is already reordered, so the step neither
completes nor leaves the population unmutated. -/
theorem micro_ga_evolve_alloc_failure_null_deref :
    micro_ga_evolve rsW 5 ⟨false, true, true⟩ ga2 0 =
      .nullDeref [⟨1, [1/4], 1/4⟩, ⟨1, [3/4], 3/4⟩] ∧
    [(⟨1, [1/4], 1/4⟩ : micro_ga_genome_t), ⟨1, [3/4], 3/4⟩] ≠
      ga2.individuals := by
  exact ⟨rfl, by decide⟩

/-- C3: the fitness threshold is configured but inert.  Two engines whose
states are identical except for the `fitness_thresh` value (both
non-negative), consuming the same random stream from the same cursor,
produce identical step outcomes — the same genes and fitness in every slot —
because replacement unconditionally rewrites every slot except the single
elite, never consulting the threshold. -/
theorem fitness_thresh_inert (rs : Nat → ℚ) (fuel : Nat) (alloc : alloc_t)
    (ga : micro_ga_t) (t1 t2 : ℚ) (i : Nat)
    (h1 : 0 ≤ t1) (h2 : 0 ≤ t2) :
    step_individuals
        (micro_ga_evolve rs fuel alloc { ga with fitness_thresh := t1 } i) =
      step_individuals
        (micro_ga_evolve rs fuel alloc { ga with fitness_thresh := t2 } i) := by
  unfold micro_ga_evolve
  dsimp only
  by_cases hr : ga.ready = 1
  · simp only [hr, if_true]
    cases hf : ga.fitness_fn with
    | none => rfl
    | some f =>
      dsimp only
      generalize micro_ga_evolve_core rs fuel alloc ga.population_size
        ga.genome_size ga.crossover_rate ga.mutation_rate
        (evalPopCounting f ga.individuals 0).1 i = c
      cases c <;> rfl
  · simp only [hr, if_false]

/-- Witness for C3 at a concrete engine and stream. -/
theorem fitness_thresh_inert_witness :
    (0 : ℚ) ≤ 0 ∧ (0 : ℚ) ≤ 1 ∧
    step_individuals
        (micro_ga_evolve rsW 5 allocOk { ga2 with fitness_thresh := 0 } 0) =
      step_individuals
        (micro_ga_evolve rsW 5 allocOk { ga2 with fitness_thresh := 1 } 0) :=
  ⟨by norm_num, by norm_num,
    fitness_thresh_inert rsW 5 allocOk ga2 0 1 0 (by norm_num) (by norm_num)⟩

/-- `freshGenes` draws exactly `k` genes. -/
theorem freshGenes_length (rs : Nat → ℚ) :
    ∀ (k i : Nat), (freshGenes rs k i).1.length = k
  | 0, _ => rfl
  | k+1, i => by simp [freshGenes, freshGenes_length rs k (i+1)]

/-- A completed `population_init` run yields exactly `n` genomes, each with
`genome_size` genes and the unevaluated fitness marker. -/
theorem population_init_props (rs : Nat → ℚ)
    (accept : Option (micro_ga_genome_t → Nat)) (gsize : Nat) :
    ∀ (fuel n i : Nat) (inds : List micro_ga_genome_t) (iend : Nat),
      population_init rs accept gsize fuel n i = some (inds, iend) →
      inds.length = n ∧
      ∀ g ∈ inds, g.genome_size = gsize ∧ g.genes.length = gsize ∧
        g.fitness = -1
  | 0, _, _, _, _, h => by simp [population_init] at h
  | fuel+1, 0, i, inds, iend, h => by
    simp [population_init] at h
    simp [h.1]
  | fuel+1, n+1, i, inds, iend, h => by
    simp only [population_init] at h
    by_cases hacc : (match accept with
      | none => 1
      | some a => a ⟨gsize, (freshGenes rs gsize i).1, -1⟩) = 0
    · rw [if_pos hacc] at h
      exact population_init_props rs accept gsize fuel (n+1) _ inds iend h
    · rw [if_neg hacc] at h
      cases hrec : population_init rs accept gsize fuel n
          (freshGenes rs gsize i).2 with
      | none => rw [hrec] at h; simp at h
      | some v =>
        obtain ⟨rest, iend'⟩ := v
        rw [hrec] at h
        simp only [Option.some.injEq, Prod.mk.injEq] at h
        obtain ⟨ih1, ih2⟩ :=
          population_init_props rs accept gsize fuel n _ rest iend' hrec
        rw [← h.1]
        constructor
        · simp [ih1]
        · intro g hg
          rcases List.mem_cons.mp hg with hh | ht
          · rw [hh]
            exact ⟨rfl, freshGenes_length rs gsize i, rfl⟩
          · exact ih2 g ht

/-- C4: `micro_ga_init` validates the configuration and fails with the
distinct configuration-error value `-2` (different from the success value 0)
whenever the population size is zero, the genome size is zero, the fitness
callback is absent, or the mutation rate, crossover rate, or fitness
threshold is negative; when every check passes and seeding completes, it
returns success with the seeded population installed and the `ready` flag
set. -/
theorem micro_ga_init_validation (rs : Nat → ℚ) (fuel : Nat)
    (config : micro_ga_config_t) (i : Nat) :
    ((config.population_size = 0 ∨ config.genome_size = 0 ∨
      config.fitness_fn.isNone = true ∨ config.mutation_rate < 0 ∨
      config.crossover_rate < 0 ∨ config.fitness_thresh < 0) →
      micro_ga_init rs fuel config i = .err (-2) ∧ ((-2 : Int) ≠ 0)) ∧
    (¬(config.population_size = 0 ∨ config.genome_size = 0 ∨
      config.fitness_fn.isNone = true ∨ config.mutation_rate < 0 ∨
      config.crossover_rate < 0 ∨ config.fitness_thresh < 0) →
      ∀ (inds : List micro_ga_genome_t) (iend : Nat),
        population_init rs config.acceptance_fn config.genome_size fuel
          config.population_size i = some (inds, iend) →
        micro_ga_init rs fuel config i = .ok
          { generation := 0
            population_size := config.population_size
            mutation_rate := config.mutation_rate
            crossover_rate := config.crossover_rate
            fitness_thresh := config.fitness_thresh
            individuals := inds
            genome_size := config.genome_size
            fitness_fn := config.fitness_fn
            acceptance_fn := config.acceptance_fn
            ready := 1
            debug := 0 } iend ∧
        inds.length = config.population_size ∧
        ∀ g ∈ inds, g.genome_size = config.genome_size ∧
          g.genes.length = config.genome_size ∧ g.fitness = -1) := by
  constructor
  · intro hbad
    refine ⟨?_, by decide⟩
    unfold micro_ga_init
    rw [if_pos hbad]
  · intro hgood inds iend hseed
    refine ⟨?_, ?_, ?_⟩
    · unfold micro_ga_init
      rw [if_neg hgood, hseed]
    · exact (population_init_props rs config.acceptance_fn config.genome_size
        fuel config.population_size i inds iend hseed).1
    · exact (population_init_props rs config.acceptance_fn config.genome_size
        fuel config.population_size i inds iend hseed).2

/-- Witness for C4: the invalid configuration is rejected with `-2`, the
valid one initializes successfully with the `ready` flag set. -/
theorem micro_ga_init_validation_witness :
    micro_ga_init rsW 5 cfgBad 0 = .err (-2) ∧
    micro_ga_init rsW 5 cfgW 0 = .ok
      { generation := 0
        population_size := 2
        mutation_rate := 0
        crossover_rate := 0
        fitness_thresh := 0
        individuals := [⟨1, [0], -1⟩, ⟨1, [1/2], -1⟩]
        genome_size := 1
        fitness_fn := some fitHead
        acceptance_fn := none
        ready := 1
        debug := 0 } 2 :=
  ⟨((micro_ga_init_validation rsW 5 cfgBad 0).1 (by left; decide)).1,
    ((micro_ga_init_validation rsW 5 cfgW 0).2
      (by
        intro h
        rcases h with h | h | h | h | h | h <;> simp [cfgW, fitHead] at h)
      [⟨1, [0], -1⟩, ⟨1, [1/2], -1⟩] 2 rfl).1⟩

/-- Positional form of the evaluation loop: every slot, the elite's included,
gets its fitness recomputed from its genes. -/
theorem evalPopCounting_getD (f : List ℚ → ℚ) :
    ∀ (pop : List micro_ga_genome_t) (k j : Nat), j < pop.length →
      (evalPopCounting f pop k).1.getD j defaultGenome =
        ⟨(pop.getD j defaultGenome).genome_size,
          (pop.getD j defaultGenome).genes,
          f (pop.getD j defaultGenome).genes⟩
  | [], _, j, hj => by simp at hj
  | g :: gs, k, 0, _ => by simp [evalPopCounting]
  | g :: gs, k, j+1, hj => by
    have hj' : j < gs.length := by
      simpa [Nat.succ_lt_succ_iff] using hj
    simp only [evalPopCounting, List.getD_cons_succ]
    exact evalPopCounting_getD f gs (k+1) j hj'

/-- C10: each call to `micro_ga_evolve` invokes the caller-supplied objective
function exactly once per population slot (the call counter of the evaluation
loop advances by the population length), including on the already-evaluated
elite — every slot's fitness is recomputed from its genes, discarding the
stored value — and on a ready engine the step runs its body (sorting,
selection, breeding, replacement) on this freshly evaluated population. -/
theorem fitness_fn_called_once_per_slot (f : List ℚ → ℚ)
    (pop : List micro_ga_genome_t) (k : Nat) :
    (evalPopCounting f pop k).2 = k + pop.length ∧
    (∀ j, j < pop.length →
      (evalPopCounting f pop k).1.getD j defaultGenome =
        ⟨(pop.getD j defaultGenome).genome_size,
          (pop.getD j defaultGenome).genes,
          f (pop.getD j defaultGenome).genes⟩) ∧
    (∀ (rs : Nat → ℚ) (fuel : Nat) (alloc : alloc_t) (ga : micro_ga_t)
      (i : Nat), ga.ready = 1 → ga.fitness_fn = some f →
      micro_ga_evolve rs fuel alloc ga i =
        step_wrap ga (micro_ga_evolve_core rs fuel alloc ga.population_size
          ga.genome_size ga.crossover_rate ga.mutation_rate
          (evalPopCounting f ga.individuals 0).1 i)) := by
  refine ⟨evalPopCounting_snd f pop k, ?_, ?_⟩
  · intro j hj
    exact evalPopCounting_getD f pop k j hj
  · intro rs fuel alloc ga i hready hfn
    unfold micro_ga_evolve
    rw [if_pos hready, hfn]

/-- Witness for C10 at a concrete engine: two slots, counter advances by 2,
slot 1 (the evaluated elite) is re-evaluated from its genes. -/
theorem fitness_fn_called_once_per_slot_witness :
    (evalPopCounting fitHead ga2.individuals 0).2 = 0 + ga2.individuals.length ∧
    (1 : Nat) < ga2.individuals.length ∧
    (evalPopCounting fitHead ga2.individuals 0).1.getD 1 defaultGenome =
      ⟨(ga2.individuals.getD 1 defaultGenome).genome_size,
        (ga2.individuals.getD 1 defaultGenome).genes,
        fitHead (ga2.individuals.getD 1 defaultGenome).genes⟩ :=
  ⟨(fitness_fn_called_once_per_slot fitHead ga2.individuals 0).1,
    by decide,
    (fitness_fn_called_once_per_slot fitHead ga2.individuals 0).2.1 1
      (by decide)⟩

/-- Inversion of a successful `micro_ga_evolve` step (all allocations
succeeding): the selection loop completed on the cumulative distribution of
the sorted evaluated population `S`, and the new population is `S` with its
first `population_size - 1` slots replaced by the bred-and-mutated children;
only the `individuals` field of the engine changes. -/
theorem evolve_ok_inversion (rs : Nat → ℚ) (fuel : Nat) (ga : micro_ga_t)
    (i : Nat) (ga' : micro_ga_t) (iend : Nat) (f : List ℚ → ℚ)
    (S : List micro_ga_genome_t)
    (hfn : ga.fitness_fn = some f)
    (hS : S = List.insertionSort gaLe (evalPopCounting f ga.individuals 0).1)
    (hok : micro_ga_evolve rs fuel allocOk ga i = .ok ga' iend) :
    ∃ pairs i1,
      selectionLoop rs (cumulativeProbs (sumFitness S) S 0) fuel
        (ga.population_size - 1) 0 0 i = some (pairs, i1) ∧
      ga'.individuals =
        replaceLoop S
          (mutateLoop rs ga.mutation_rate
            (breedLoop rs ga.crossover_rate S ga.genome_size pairs i1).1
            (breedLoop rs ga.crossover_rate S ga.genome_size pairs i1).2).1
          (ga.population_size - 1) ∧
      ga'.population_size = ga.population_size ∧
      ga'.genome_size = ga.genome_size := by
  by_cases hr : ga.ready = 1
  · unfold micro_ga_evolve at hok
    rw [if_pos hr, hfn] at hok
    unfold micro_ga_evolve_core at hok
    dsimp only [allocOk] at hok
    rw [← hS] at hok
    split at hok
    · simp [step_wrap] at hok
    · split at hok
      · split at hok <;> simp [step_wrap] at hok
      · split at hok
        · simp [step_wrap] at hok
        · rename_i pairs i1 heq
          unfold step_wrap at hok
          rw [step_result_t.ok.injEq] at hok
          refine ⟨pairs, i1, heq, ?_, ?_, ?_⟩
          · rw [← hok.1]
          · rw [← hok.1]
          · rw [← hok.1]
  · unfold micro_ga_evolve at hok
    rw [if_neg hr] at hok
    simp at hok

/-- C1: elitism of the evolve step.  For an initialized engine whose
population has been evaluated (every stored fitness equals the objective
value of its genes), a successful `micro_ga_evolve` keeps a genome of maximum
fitness present and unchanged — same genes and same fitness — in the last
slot (index `population_size - 1`), which the replacement loop never
writes. -/
theorem micro_ga_evolve_elitism (rs : Nat → ℚ) (fuel : Nat) (f : List ℚ → ℚ)
    (ga : micro_ga_t) (i : Nat) (ga' : micro_ga_t) (iend : Nat)
    (hfn : ga.fitness_fn = some f)
    (hlen : ga.population_size = ga.individuals.length)
    (hpos : 0 < ga.population_size)
    (heval : ∀ g ∈ ga.individuals, g.fitness = f g.genes)
    (hok : micro_ga_evolve rs fuel allocOk ga i = .ok ga' iend) :
    ∃ g, g ∈ ga.individuals ∧
      (∀ h ∈ ga.individuals, h.fitness ≤ g.fitness) ∧
      ga'.individuals.getD (ga.population_size - 1) defaultGenome = g ∧
      g ∈ ga'.individuals := by
  have hevals : (evalPopCounting f ga.individuals 0).1 = ga.individuals :=
    evalPopCounting_of_evaluated f ga.individuals 0 heval
  obtain ⟨pairs, i1, hsel, hinds, hps, hgs⟩ :=
    evolve_ok_inversion rs fuel ga i ga' iend f
      (List.insertionSort gaLe ga.individuals) hfn (by rw [hevals]) hok
  have hperm : (List.insertionSort gaLe ga.individuals).Perm ga.individuals :=
    List.perm_insertionSort gaLe ga.individuals
  have hlenS : (List.insertionSort gaLe ga.individuals).length =
      ga.individuals.length := hperm.length_eq
  have hposS : 0 < (List.insertionSort gaLe ga.individuals).length := by
    rw [hlenS, ← hlen]
    exact hpos
  have hne : List.insertionSort gaLe ga.individuals ≠ [] :=
    List.ne_nil_of_length_pos hposS
  refine ⟨(List.insertionSort gaLe ga.individuals).getLast hne, ?_, ?_, ?_, ?_⟩
  · exact hperm.mem_iff.mp (List.getLast_mem hne)
  · intro h hh
    exact sorted_getLast_max (List.insertionSort gaLe ga.individuals)
      (List.sorted_insertionSort gaLe ga.individuals) hne h
      (hperm.mem_iff.mpr hh)
  · rw [hinds, replaceLoop_getD_of_le defaultGenome _ _ _ _ (le_refl _)]
    have hidx : ga.population_size - 1 <
        (List.insertionSort gaLe ga.individuals).length := by
      rw [hlenS, ← hlen]
      omega
    rw [List.getD_eq_getElem _ _ hidx, List.getLast_eq_getElem]
    congr 1
    rw [hlenS, ← hlen]
  · have hlen' : ga'.individuals.length =
        (List.insertionSort gaLe ga.individuals).length := by
      rw [hinds, replaceLoop_length]
    have hidx' : ga.population_size - 1 < ga'.individuals.length := by
      rw [hlen', hlenS, ← hlen]
      omega
    have hmem : ga'.individuals.getD (ga.population_size - 1) defaultGenome ∈
        ga'.individuals := by
      rw [List.getD_eq_getElem _ _ hidx']
      exact List.getElem_mem hidx'
    have hgd : ga'.individuals.getD (ga.population_size - 1) defaultGenome =
        (List.insertionSort gaLe ga.individuals).getLast hne := by
      rw [hinds, replaceLoop_getD_of_le defaultGenome _ _ _ _ (le_refl _)]
      have hidx : ga.population_size - 1 <
          (List.insertionSort gaLe ga.individuals).length := by
        rw [hlenS, ← hlen]
        omega
      rw [List.getD_eq_getElem _ _ hidx, List.getLast_eq_getElem]
      congr 1
      rw [hlenS, ← hlen]
    rw [← hgd]
    exact hmem

/-- Witness for C1: a concrete two-individual engine; after one step the
maximum-fitness genome (genes `[3/4]`, fitness `3/4`) sits unchanged in the
last slot. -/
theorem micro_ga_evolve_elitism_witness :
    0 < ga2.population_size ∧
    (∃ g, g ∈ ga2.individuals ∧
      (∀ h ∈ ga2.individuals, h.fitness ≤ g.fitness) ∧
      ({ ga2 with individuals := [⟨1, [1/2], -1⟩, ⟨1, [3/4], 3/4⟩] } :
          micro_ga_t).individuals.getD (ga2.population_size - 1)
        defaultGenome = g ∧
      g ∈ ({ ga2 with individuals := [⟨1, [1/2], -1⟩, ⟨1, [3/4], 3/4⟩] } :
          micro_ga_t).individuals) :=
  ⟨by decide,
    micro_ga_evolve_elitism rsW 5 fitHead ga2 0
      { ga2 with individuals := [⟨1, [1/2], -1⟩, ⟨1, [3/4], 3/4⟩] } 5
      rfl rfl (by decide) (by decide) rfl⟩

/-- C9: size invariant of the evolve step.  For an initialized engine (stored
population size equal to the population's length, every genome of the
configured genome length), a successful `micro_ga_evolve` leaves the stored
population size, the number of individuals, and every genome's length exactly
as before: individuals are replaced in place, never added or removed. -/
theorem micro_ga_evolve_size_invariant (rs : Nat → ℚ) (fuel : Nat)
    (f : List ℚ → ℚ) (ga : micro_ga_t) (i : Nat) (ga' : micro_ga_t)
    (iend : Nat)
    (hfn : ga.fitness_fn = some f)
    (hlen : ga.population_size = ga.individuals.length)
    (hgen : ∀ g ∈ ga.individuals, g.genome_size = ga.genome_size ∧
      g.genes.length = ga.genome_size)
    (hok : micro_ga_evolve rs fuel allocOk ga i = .ok ga' iend) :
    ga'.population_size = ga.population_size ∧
    ga'.individuals.length = ga.individuals.length ∧
    ∀ g ∈ ga'.individuals, g.genome_size = ga.genome_size ∧
      g.genes.length = ga.genome_size := by
  obtain ⟨pairs, i1, hsel, hinds, hps, hgs⟩ :=
    evolve_ok_inversion rs fuel ga i ga' iend f
      (List.insertionSort gaLe (evalPopCounting f ga.individuals 0).1)
      hfn rfl hok
  set E := (evalPopCounting f ga.individuals 0).1 with hE
  set S := List.insertionSort gaLe E with hSdef
  have hQE : ∀ g ∈ E, g.genome_size = ga.genome_size ∧
      g.genes.length = ga.genome_size := by
    intro g hg
    rw [hE, evalPopCounting_fst] at hg
    obtain ⟨x, hx, hgx⟩ := List.mem_map.mp hg
    rw [← hgx]
    exact ⟨(hgen x hx).1, (hgen x hx).2⟩
  have hlenE : E.length = ga.individuals.length := by
    rw [hE, evalPopCounting_fst, List.length_map]
  have hperm : S.Perm E := List.perm_insertionSort gaLe E
  have hlenS : S.length = E.length := hperm.length_eq
  have hQS : ∀ g ∈ S, g.genome_size = ga.genome_size ∧
      g.genes.length = ga.genome_size :=
    fun g hg => hQE g (hperm.mem_iff.mp hg)
  have hlen' : ga'.individuals.length = ga.individuals.length := by
    rw [hinds, replaceLoop_length, hlenS, hlenE]
  refine ⟨hps, hlen', ?_⟩
  by_cases h0 : S.length = 0
  · intro g hg
    rw [hinds] at hg
    have hSnil : S = [] := List.eq_nil_of_length_eq_zero h0
    rw [hSnil] at hg
    have hrepl : ∀ (cs : List micro_ga_genome_t) (k : Nat),
        replaceLoop [] cs k = [] := by
      intro cs k
      cases k with
      | zero => rw [replaceLoop_zero]
      | succ k' => rfl
    rw [hrepl] at hg
    simp at hg
  · have hposS : 0 < (cumulativeProbs (sumFitness S) S 0).length := by
      rw [cumulativeProbs_length]
      exact Nat.pos_of_ne_zero h0
    have hbounds := selectionLoop_bounds rs (cumulativeProbs (sumFitness S) S 0)
      hposS fuel (ga.population_size - 1) 0 0 i pairs i1 hposS hposS hsel
    have hchild := breedLoop_pred rs ga.crossover_rate S ga.genome_size
      (fun g hg => (hQS g hg).2) pairs i1
      (fun p hp => by
        have hb := hbounds p hp
        rw [cumulativeProbs_length] at hb
        exact hb)
    have hmut := mutateLoop_pred rs ga.mutation_rate
      (fun c => c.genome_size = ga.genome_size ∧
        c.genes.length = ga.genome_size)
      (fun c c' h1 h2 hc => ⟨h1.trans hc.1, h2.trans hc.2⟩)
      (breedLoop rs ga.crossover_rate S ga.genome_size pairs i1).1
      (breedLoop rs ga.crossover_rate S ga.genome_size pairs i1).2 hchild
    intro g hg
    rw [hinds] at hg
    exact replaceLoop_pred ga.genome_size S _ (ga.population_size - 1)
      hQS hmut g hg

/-- Witness for C9 at the concrete two-individual engine. -/
theorem micro_ga_evolve_size_invariant_witness :
    ga2.population_size = ga2.individuals.length ∧
    ({ ga2 with individuals := [⟨1, [1/2], -1⟩, ⟨1, [3/4], 3/4⟩] } :
        micro_ga_t).population_size = ga2.population_size ∧
    ({ ga2 with individuals := [⟨1, [1/2], -1⟩, ⟨1, [3/4], 3/4⟩] } :
        micro_ga_t).individuals.length = ga2.individuals.length ∧
    ∀ g ∈ ({ ga2 with individuals := [⟨1, [1/2], -1⟩, ⟨1, [3/4], 3/4⟩] } :
        micro_ga_t).individuals, g.genome_size = ga2.genome_size ∧
      g.genes.length = ga2.genome_size :=
  ⟨rfl,
    (micro_ga_evolve_size_invariant rsW 5 fitHead ga2 0
      { ga2 with individuals := [⟨1, [1/2], -1⟩, ⟨1, [3/4], 3/4⟩] } 5
      rfl rfl (by decide) rfl).1,
    (micro_ga_evolve_size_invariant rsW 5 fitHead ga2 0
      { ga2 with individuals := [⟨1, [1/2], -1⟩, ⟨1, [3/4], 3/4⟩] } 5
      rfl rfl (by decide) rfl).2.1,
    (micro_ga_evolve_size_invariant rsW 5 fitHead ga2 0
      { ga2 with individuals := [⟨1, [1/2], -1⟩, ⟨1, [3/4], 3/4⟩] } 5
      rfl rfl (by decide) rfl).2.2⟩
